import Mathlib

/-!
Shallow embedding of the zod-dev utility (src/main.ts): the conditional
validation gate (`withDev`, `createWithDev`, `createDevParse`) and the
collection CRUD helpers produced by `createArrayOperations`
(`isCollection`, `getIndices`, `get`, `remove`, `add`, `update`).

Conventions of the embedding:
- A TypeScript throw is modelled as `Except.error`; normal return as
  `Except.ok`.
- JavaScript truthiness is made explicit wherever the source branches on
  it (`!query`, `if (queryAsFunction(singleItem))`, `query ? ... : ...`).
- The external zod validator is an opaque capability: a `Schema` is a
  function from a value to `Except ValidationError` of a value, and the
  derived array-of validator parses each element in order.
-/

namespace ZodDev

/-- Error raised by the external validator when a value does not match the
schema. -/
structure ValidationError where
  msg : String
deriving DecidableEq, Repr

/-- Modelled from the spec: the external validator contract (spec section 6)
is any capability exposing `validate(value) -> value` that reports a
descriptive error on mismatch. The zod library itself is an external
dependency, so a schema is embedded as its parse function. -/
structure Schema (α : Type) where
  parse : α → Except ValidationError α

/-- Modelled from the spec: the derived array-of validator constructible
from a single-item validator (zod `z.array(schema)`): it parses each
element with the item schema, returning the list of results, and fails
if any element is rejected. -/
def arraySchema {α : Type} (s : Schema α) : Schema (List α) :=
  ⟨fun xs => xs.mapM s.parse⟩

/-- The result of `withDev` / `createWithDev`: the original schema fields
(spread `...current`) together with the added `devParse` method. -/
structure DevSchema (α : Type) where
  toSchema : Schema α
  devParse : α → Except ValidationError α

/-- `withDev(current, condition)` (src/main.ts lines 69-81): spreads
`current` and adds `devParse`, which returns the value unchanged when the
condition is false and otherwise delegates to `current.parse`. -/
def withDev {α : Type} (current : Schema α) (condition : Bool) : DevSchema α :=
  { toSchema := current
    devParse := fun value =>
      if !condition then Except.ok value else current.parse value }

/-- `createWithDev(condition)` (src/main.ts lines 88-101): fixes the
condition once and returns the reusable schema-mixing function. -/
def createWithDev (condition : Bool) : {α : Type} → Schema α → DevSchema α :=
  fun current =>
    { toSchema := current
      devParse := fun value =>
        if !condition then Except.ok value else current.parse value }

/-- `createDevParse(condition)` (src/main.ts lines 108-118): fixes the
condition once and returns the stand-alone gate `(value, schema)`. -/
def createDevParse (condition : Bool) : {α : Type} → α → Schema α → Except ValidationError α :=
  fun value schema =>
    if !condition then Except.ok value else schema.parse value

/-! ## Collection operations (`createArrayOperations`, src/main.ts lines 131-288) -/

/-- Errors raised by the collection operations: a propagated validation
error, a missing-argument error (the source message is stored, for example
"No query supplied"), and the identifier-not-found error whose source
message is rendered as `Episode <id> does not exist`. -/
inductive Err where
  | validation (e : ValidationError)
  | missing (msg : String)
  | notFound (id : String)
deriving DecidableEq, Repr

/-- The captured state of one `createArrayOperations(condition, schema)`
call, together with the `.id` field access used on items (the source
requires items to carry a string `id` property). -/
structure OpsCfg (Item : Type) where
  condition : Bool
  schema : Schema Item
  getId : Item → String

/-- The `Query` type of `createArrayOperations`: a single id string, an
array of id strings, or a predicate function. The source types the
predicate as `(item: Item) => Item` but only ever uses the truthiness of
its result, so the embedding keeps that truthiness as a `Bool`. -/
inductive Query (Item : Type) where
  | id (s : String)
  | ids (l : List String)
  | pred (f : Item → Bool)

/-- JavaScript truthiness of a `Query` value, as tested by `if (!query)`:
a string is falsy exactly when empty; arrays and functions are always
truthy. -/
def Query.falsy {Item : Type} : Query Item → Bool
  | Query.id s => s.isEmpty
  | Query.ids _ => false
  | Query.pred _ => false

/-- `isCollection(value)` (src/main.ts lines 141-142): the conditional gate
applied to the array-of-schema validator, `devParse(value, z.array(schema))`. -/
def isCollection {Item : Type} (cfg : OpsCfg Item) (value : List Item) :
    Except Err (List Item) :=
  (createDevParse cfg.condition value (arraySchema cfg.schema)).mapError Err.validation

/-- JavaScript `Array.prototype.findIndex`: index of the first element whose
callback result is truthy, `-1` when there is none. -/
def jsFindIndex {Item : Type} (p : Item → Bool) (l : List Item) : Int :=
  match l.findIdx? p with
  | some i => (i : Int)
  | none => -1

/-- The findIndex callback in `getIndices` (src/main.ts lines 164-166):
`(singleItem) => { singleItem.id === singleId; }`. The block body computes
the comparison as an expression statement and discards it; with no return
statement the callback evaluates to `undefined`, which is falsy, so the
truthiness seen by findIndex is `false` for every item. -/
def lookupCallback {Item : Type} (cfg : OpsCfg Item) (singleItem : Item)
    (singleId : String) : Bool :=
  let _cmp := cfg.getId singleItem == singleId
  false

/-- One step of the identifier branch of `getIndices` (src/main.ts lines
163-173): findIndex over the gated collection followed by the
`index === -1` not-found check. -/
def lookupId {Item : Type} (cfg : OpsCfg Item) (inner : List Item)
    (singleId : String) : Except Err Int :=
  let index := jsFindIndex (fun singleItem => lookupCallback cfg singleItem singleId) inner
  if index = -1 then Except.error (Err.notFound singleId) else Except.ok index

/-- The `for..of` loop of the predicate branch of `getIndices` (src/main.ts
lines 175-185): positions whose item makes the query function truthy, in
ascending order, with `count` threaded explicitly. -/
def predIndices {Item : Type} (f : Item → Bool) : List Item → Int → List Int
  | [], _ => []
  | x :: xs, count =>
      if f x then count :: predIndices f xs (count + 1)
      else predIndices f xs (count + 1)

/-- `getIndices(collection, query)` (src/main.ts lines 144-188). The
`if (!collection)` guard cannot fire in the embedding because an actual
array is always truthy in JavaScript; the `if (!query)` guard is the
truthiness test of `Query.falsy`. -/
def getIndices {Item : Type} (cfg : OpsCfg Item) (collection : List Item)
    (query : Query Item) : Except Err (List Int) := do
  if query.falsy then throw (Err.missing "No query supplied")
  let inner ← isCollection cfg collection
  match query with
  | Query.id s => ([s]).mapM (lookupId cfg inner)
  | Query.ids l => l.mapM (lookupId cfg inner)
  | Query.pred f => pure (predIndices f inner 0)

/-- JavaScript `indices.includes(index)`. -/
def jsIncludes (l : List Int) (i : Int) : Bool :=
  l.any (fun j => j == i)

/-- `inner.filter((_, index) => !indices.includes(index))` (src/main.ts
lines 194-196), with the element index threaded explicitly. -/
def filterWithIndexNot {Item : Type} (indices : List Int) :
    List Item → Int → List Item
  | [], _ => []
  | x :: xs, i =>
      if jsIncludes indices i then filterWithIndexNot indices xs (i + 1)
      else x :: filterWithIndexNot indices xs (i + 1)

/-- `remove(collection, query)` (src/main.ts lines 190-199). -/
def remove {Item : Type} (cfg : OpsCfg Item) (collection : List Item)
    (query : Query Item) : Except Err (List Item) := do
  let indices ← getIndices cfg collection query
  let inner ← isCollection cfg collection
  let result := filterWithIndexNot indices inner 0
  isCollection cfg result

/-- JavaScript indexing `inner[singleIndex]`. The indices produced by
`getIndices` are always in bounds of the gated collection, so the
out-of-bounds `undefined` case is modelled by `default`. -/
def jsIndex {Item : Type} [Inhabited Item] (l : List Item) (i : Int) : Item :=
  if i < 0 then default else l.getD i.toNat default

/-- `get(collection, query)` (src/main.ts lines 227-236). -/
def get {Item : Type} [Inhabited Item] (cfg : OpsCfg Item) (collection : List Item)
    (query : Query Item) : Except Err (List Item) := do
  let indices ← getIndices cfg collection query
  let inner ← isCollection cfg collection
  let result := indices.map (fun singleIndex => jsIndex inner singleIndex)
  isCollection cfg result

/-- The `position` argument of `add`; `stop` embeds the source string
literal "end", which is a reserved word here. -/
inductive Position where
  | start
  | stop
deriving DecidableEq, Repr

/-- `Array.isArray(values) ? values : [values]` (src/main.ts lines 251-253). -/
def valuesAsArray {Item : Type} : Item ⊕ List Item → List Item
  | Sum.inl v => [v]
  | Sum.inr l => l

/-- `add(collection, values, position?)` (src/main.ts lines 244-260). -/
def add {Item : Type} (cfg : OpsCfg Item) (collection : List Item)
    (values : Item ⊕ List Item) (position : Option Position) :
    Except Err (List Item) := do
  let inner ← isCollection cfg collection
  let vs := valuesAsArray values
  if position = some Position.start then
    isCollection cfg (vs ++ inner)
  else
    isCollection cfg (inner ++ vs)

/-- `update(collection, operation, query?)` (src/main.ts lines 269-286).
The `if (!operation)` guard cannot fire in the embedding because a
function value is always truthy in JavaScript and the embedding always
supplies an operation. The ternary `query ? remove(collection, query) :
collection` takes the else branch both when `query` is omitted and when it
is a falsy value such as the empty string. -/
def update {Item : Type} (cfg : OpsCfg Item) (collection : List Item)
    (operation : Item → Item) (query : Option (Query Item)) :
    Except Err (List Item) := do
  let filtered ← match query with
    | some q =>
        if q.falsy then pure collection else remove cfg collection q
    | none => pure collection
  let result := filtered.map operation
  isCollection cfg result

/-! ## Concrete instances used by witnesses and counterexamples -/

/-- A schema that accepts every value unchanged; the simplest inhabitant
of the external validator contract. -/
def okSchema (α : Type) : Schema α :=
  ⟨fun v => Except.ok v⟩

/-- A concrete record shape matching the spec scenarios: a string id and
an integer age. -/
structure Rec where
  id : String
  age : Int
deriving DecidableEq, Repr

instance : Inhabited Rec := ⟨⟨"", 0⟩⟩

/-- Collection operations over `Rec` with the gate enabled and the
accept-everything schema. -/
def recOps : OpsCfg Rec :=
  { condition := true, schema := okSchema Rec, getId := Rec.id }

/-- A schema over `Rec` that rejects records with a negative age. -/
def ageSchema : Schema Rec :=
  ⟨fun r => if 0 ≤ r.age then Except.ok r
            else Except.error ⟨"Expected nonnegative age"⟩⟩

/-- Collection operations over `Rec` with the gate enabled and the
age-checking schema. -/
def ageOps : OpsCfg Rec :=
  { condition := true, schema := ageSchema, getId := Rec.id }

/-! ## Helper lemmas -/

theorem jsIncludes_cons (a : Int) (l : List Int) (i : Int) :
    jsIncludes (a :: l) i = ((a == i) || jsIncludes l i) := rfl

theorem except_bind_ok {ε α β : Type} (a : α) (f : α → Except ε β) :
    (Except.ok a : Except ε α) >>= f = f a := rfl

theorem except_bind_error {ε α β : Type} (e : ε) (f : α → Except ε β) :
    (Except.error e : Except ε α) >>= f = Except.error e := rfl

theorem mapM_parse_ok {α : Type} (s : Schema α) (l : List α)
    (h : ∀ x ∈ l, s.parse x = Except.ok x) :
    l.mapM s.parse = Except.ok l := by
  induction l with
  | nil => rfl
  | cons x xs ih =>
      rw [List.mapM_cons, h x (List.mem_cons_self x xs),
        ih (fun y hy => h y (List.mem_cons_of_mem x hy))]
      rfl

theorem isCollection_id {Item : Type} (cfg : OpsCfg Item) (l : List Item)
    (h : ∀ x ∈ l, cfg.schema.parse x = Except.ok x) :
    isCollection cfg l = Except.ok l := by
  have h2 : (arraySchema cfg.schema).parse l = Except.ok l :=
    mapM_parse_ok cfg.schema l h
  unfold isCollection createDevParse
  cases hc : cfg.condition
  · rfl
  · rw [h2]
    simp [Except.mapError]

theorem predIndices_below_start {Item : Type} (p : Item → Bool) (l : List Item) :
    ∀ k j : Int, j < k → jsIncludes (predIndices p l k) j = false := by
  induction l with
  | nil => intro k j _; rfl
  | cons x xs ih =>
      intro k j hj
      by_cases hp : p x
      · simp only [predIndices, if_pos hp, jsIncludes_cons,
          ih (k + 1) j (by omega), Bool.or_false]
        exact beq_eq_false_iff_ne.mpr (by omega)
      · simp only [predIndices, if_neg hp]
        exact ih (k + 1) j (by omega)

theorem filterWithIndexNot_cons_lt {Item : Type} (j : Int) (I : List Int)
    (l : List Item) : ∀ k : Int, j < k →
    filterWithIndexNot (j :: I) l k = filterWithIndexNot I l k := by
  induction l with
  | nil => intro k _; rfl
  | cons x xs ih =>
      intro k hk
      simp only [filterWithIndexNot, jsIncludes_cons,
        beq_eq_false_iff_ne.mpr (show j ≠ k by omega), Bool.false_or]
      rw [ih (k + 1) (by omega)]

theorem filterWithIndexNot_predIndices {Item : Type} (p : Item → Bool)
    (l : List Item) : ∀ k : Int,
    filterWithIndexNot (predIndices p l k) l k = l.filter (fun x => !p x) := by
  induction l with
  | nil => intro k; rfl
  | cons x xs ih =>
      intro k
      by_cases hp : p x
      · simp only [predIndices, if_pos hp, filterWithIndexNot, jsIncludes_cons,
          beq_self_eq_true, Bool.true_or, if_true]
        rw [filterWithIndexNot_cons_lt k _ xs (k + 1) (by omega), ih (k + 1),
          List.filter_cons]
        simp [hp]
      · simp only [predIndices, if_neg hp, filterWithIndexNot,
          predIndices_below_start p xs (k + 1) k (by omega), if_false]
        rw [ih (k + 1), List.filter_cons]
        simp [hp]

theorem getIndices_pred {Item : Type} (cfg : OpsCfg Item) (l : List Item)
    (p : Item → Bool) (h : ∀ x ∈ l, cfg.schema.parse x = Except.ok x) :
    getIndices cfg l (Query.pred p) = Except.ok (predIndices p l 0) := by
  simp [getIndices, Query.falsy, isCollection_id cfg l h]

theorem remove_pred_eq_filter {Item : Type} (cfg : OpsCfg Item) (l : List Item)
    (p : Item → Bool) (h : ∀ x ∈ l, cfg.schema.parse x = Except.ok x) :
    remove cfg l (Query.pred p) = Except.ok (l.filter (fun x => !p x)) := by
  have hf : ∀ x ∈ l.filter (fun x => !p x), cfg.schema.parse x = Except.ok x :=
    fun x hx => h x (List.mem_of_mem_filter hx)
  simp [remove, getIndices_pred cfg l p h, isCollection_id cfg l h,
    except_bind_ok, filterWithIndexNot_predIndices, isCollection_id cfg _ hf]

/-! ## Claim theorems -/

/-- Claim C1: for every value and every schema, the conditional gate with
condition false — the devParse produced by withDev, by createWithDev, and
the stand-alone function of createDevParse — returns the value itself
unchanged, without invoking the parse of the schema, and can raise no
error (the result is the ok constructor holding the input value, for every
schema alike). -/
theorem gate_disabled_is_identity {α : Type} (v : α) (s : Schema α) :
    (withDev s false).devParse v = Except.ok v ∧
    (createWithDev false s).devParse v = Except.ok v ∧
    createDevParse false v s = Except.ok v :=
  ⟨rfl, rfl, rfl⟩

/-- Claim C2: for every value and every schema, the conditional gate with
condition true returns exactly the result of the parse of the underlying
schema applied to the value — the validated value when it conforms, and
the untransformed ValidationError when the schema rejects it. -/
theorem gate_enabled_equals_parse {α : Type} (v : α) (s : Schema α) :
    createDevParse true v s = s.parse v := rfl

/-- Claim C3, divergence at the failing input: the findIndex callback of
getIndices discards its comparison and returns undefined, so the lookup of
an identifier that IS present in the collection still reports the
not-found error instead of returning the length-1 array of its position,
while lookup of an absent identifier also reports not-found (that half of
the claim holds). -/
theorem getIndices_present_id_still_not_found :
    getIndices recOps [⟨"a", 24⟩] (Query.id "a")
        = Except.error (Err.notFound "a") ∧
    getIndices recOps [⟨"a", 24⟩] (Query.id "zzz")
        = Except.error (Err.notFound "zzz") :=
  ⟨rfl, rfl⟩

/-- Claim C4, divergence at the failing input: on the spec scenario
collection, update with the age-increment operation and a query matching
id "b" drops the matched record entirely and applies the operation to the
non-matched complement, returning the single record a with age 25 instead
of leaving a untouched and incrementing b. -/
theorem update_with_query_drops_matched :
    update recOps [⟨"a", 24⟩, ⟨"b", 39⟩]
        (fun r => ⟨r.id, r.age + 1⟩)
        (some (Query.pred (fun r => r.id == "b")))
      = Except.ok [⟨"a", 25⟩] := rfl

/-- Claim C5, divergence at the failing input: with the condition enabled
and a schema rejecting negative ages, update with the query omitted never
passes its input collection through the array-of-schema validator — a
collection the validator rejects flows through the operation and the call
succeeds, violating the boundary invariant. -/
theorem update_never_validates_input :
    update ageOps [⟨"a", -1⟩] (fun r => ⟨r.id, r.age + 2⟩) none
        = Except.ok [⟨"a", 1⟩] ∧
    (arraySchema ageSchema).parse [⟨"a", -1⟩]
        = Except.error ⟨"Expected nonnegative age"⟩ :=
  ⟨rfl, rfl⟩

/-- Claim C9: for every collection, the empty string as identifier query is
falsy, so getIndices — and with it get and remove — fails with the
missing-query error "No query supplied" rather than the not-found error;
a record whose id is the empty string can therefore never be looked up by
identifier. -/
theorem empty_id_query_reports_missing_query {Item : Type} [Inhabited Item]
    (cfg : OpsCfg Item) (collection : List Item) :
    getIndices cfg collection (Query.id "")
        = Except.error (Err.missing "No query supplied") ∧
    remove cfg collection (Query.id "")
        = Except.error (Err.missing "No query supplied") ∧
    get cfg collection (Query.id "")
        = Except.error (Err.missing "No query supplied") :=
  ⟨rfl, rfl, rfl⟩

/-- Claim C10, divergence at the failing input: add happily produces a
collection with a duplicated id (no uniqueness is enforced), but the
subsequent identifier lookup does not resolve to the first occurrence as
the claim states — the broken findIndex callback makes it fail with the
not-found error. -/
theorem add_duplicate_id_then_lookup_fails :
    add recOps [⟨"a", 1⟩] (Sum.inl ⟨"a", 2⟩) none
        = Except.ok [⟨"a", 1⟩, ⟨"a", 2⟩] ∧
    getIndices recOps [⟨"a", 1⟩, ⟨"a", 2⟩] (Query.id "a")
        = Except.error (Err.notFound "a") :=
  ⟨rfl, rfl⟩

/-- Claim C6: for every configuration, collection, and single record or
sequence of records whose elements the schema accepts unchanged, add with
position start returns the re-validated collection whose first elements
are the new records followed by the original ones in order, and add with
position end or with the position omitted returns the original records in
order followed by the new records appended last. -/
theorem add_start_prepends_end_appends {Item : Type} (cfg : OpsCfg Item)
    (collection : List Item) (values : Item ⊕ List Item)
    (hc : ∀ x ∈ collection, cfg.schema.parse x = Except.ok x)
    (hv : ∀ x ∈ valuesAsArray values, cfg.schema.parse x = Except.ok x) :
    add cfg collection values (some Position.start)
        = Except.ok (valuesAsArray values ++ collection) ∧
    add cfg collection values (some Position.stop)
        = Except.ok (collection ++ valuesAsArray values) ∧
    add cfg collection values none
        = Except.ok (collection ++ valuesAsArray values) := by
  have hvc : ∀ x ∈ valuesAsArray values ++ collection,
      cfg.schema.parse x = Except.ok x := by
    intro x hx
    rcases List.mem_append.1 hx with h | h
    · exact hv x h
    · exact hc x h
  have hcv : ∀ x ∈ collection ++ valuesAsArray values,
      cfg.schema.parse x = Except.ok x := by
    intro x hx
    rcases List.mem_append.1 hx with h | h
    · exact hc x h
    · exact hv x h
  refine ⟨?_, ?_, ?_⟩ <;>
    simp [add, isCollection_id cfg _ hc, except_bind_ok,
      isCollection_id cfg _ hvc, isCollection_id cfg _ hcv]

/-- Witness for C6 at a concrete input: the one-record collection a and the
single new record b, with the gate enabled and the accept-everything
schema. -/
theorem add_start_prepends_end_appends_witness :
    add recOps [⟨"a", 24⟩] (Sum.inl ⟨"b", 39⟩) (some Position.start)
        = Except.ok (valuesAsArray (Sum.inl ⟨"b", 39⟩) ++ [⟨"a", 24⟩]) ∧
    add recOps [⟨"a", 24⟩] (Sum.inl ⟨"b", 39⟩) (some Position.stop)
        = Except.ok ([⟨"a", 24⟩] ++ valuesAsArray (Sum.inl ⟨"b", 39⟩)) ∧
    add recOps [⟨"a", 24⟩] (Sum.inl ⟨"b", 39⟩) none
        = Except.ok ([⟨"a", 24⟩] ++ valuesAsArray (Sum.inl ⟨"b", 39⟩)) :=
  add_start_prepends_end_appends recOps [⟨"a", 24⟩] (Sum.inl ⟨"b", 39⟩)
    (fun _ _ => rfl) (fun _ _ => rfl)

/-- Counterexample for C7 as stated: removing the middle record b from the
three-record collection a, b, c and re-inserting it with add restores the
original at NEITHER available position — start places b at the front and
end places it last, and both results differ from the original collection,
although no identifiers collide. -/
theorem remove_middle_add_cannot_restore :
    remove recOps [⟨"a", 1⟩, ⟨"b", 2⟩, ⟨"c", 3⟩]
        (Query.pred (fun r => r.id == "b"))
      = Except.ok [⟨"a", 1⟩, ⟨"c", 3⟩] ∧
    add recOps [⟨"a", 1⟩, ⟨"c", 3⟩] (Sum.inl ⟨"b", 2⟩) (some Position.start)
      = Except.ok [⟨"b", 2⟩, ⟨"a", 1⟩, ⟨"c", 3⟩] ∧
    add recOps [⟨"a", 1⟩, ⟨"c", 3⟩] (Sum.inl ⟨"b", 2⟩) (some Position.stop)
      = Except.ok [⟨"a", 1⟩, ⟨"c", 3⟩, ⟨"b", 2⟩] ∧
    add recOps [⟨"a", 1⟩, ⟨"c", 3⟩] (Sum.inl ⟨"b", 2⟩) none
      = Except.ok [⟨"a", 1⟩, ⟨"c", 3⟩, ⟨"b", 2⟩] ∧
    ([⟨"b", 2⟩, ⟨"a", 1⟩, ⟨"c", 3⟩] : List Rec)
      ≠ [⟨"a", 1⟩, ⟨"b", 2⟩, ⟨"c", 3⟩] ∧
    ([⟨"a", 1⟩, ⟨"c", 3⟩, ⟨"b", 2⟩] : List Rec)
      ≠ [⟨"a", 1⟩, ⟨"b", 2⟩, ⟨"c", 3⟩] :=
  ⟨rfl, rfl, rfl, rfl, by decide, by decide⟩

/-- Claim C7 (amended): the remove-then-add round trip restores the
original collection when the removed records form a contiguous block at
the end of the collection and are re-added with position end, and
symmetrically when they form a contiguous block at the start and are
re-added with position start — provided the schema accepts every record
unchanged and the predicate separates removed from kept records. -/
theorem remove_add_round_trip {Item : Type} (cfg : OpsCfg Item)
    (kept removed : List Item) (p : Item → Bool)
    (hkeep : ∀ x ∈ kept, p x = false)
    (hrem : ∀ x ∈ removed, p x = true)
    (hpk : ∀ x ∈ kept, cfg.schema.parse x = Except.ok x)
    (hpr : ∀ x ∈ removed, cfg.schema.parse x = Except.ok x) :
    (remove cfg (kept ++ removed) (Query.pred p) = Except.ok kept ∧
      add cfg kept (Sum.inr removed) (some Position.stop)
        = Except.ok (kept ++ removed)) ∧
    (remove cfg (removed ++ kept) (Query.pred p) = Except.ok kept ∧
      add cfg kept (Sum.inr removed) (some Position.start)
        = Except.ok (removed ++ kept)) := by
  have hka : kept.filter (fun x => !p x) = kept :=
    List.filter_eq_self.mpr (fun x hx => by simp [hkeep x hx])
  have hra : removed.filter (fun x => !p x) = [] := by
    rw [List.filter_eq_nil_iff]
    intro x hx
    simp [hrem x hx]
  have hsuffix : ∀ x ∈ kept ++ removed, cfg.schema.parse x = Except.ok x := by
    intro x hx
    rcases List.mem_append.1 hx with h | h
    · exact hpk x h
    · exact hpr x h
  have hprefix : ∀ x ∈ removed ++ kept, cfg.schema.parse x = Except.ok x := by
    intro x hx
    rcases List.mem_append.1 hx with h | h
    · exact hpr x h
    · exact hpk x h
  have hadd := add_start_prepends_end_appends cfg kept (Sum.inr removed) hpk hpr
  refine ⟨⟨?_, hadd.2.1⟩, ⟨?_, hadd.1⟩⟩
  · rw [remove_pred_eq_filter cfg _ p hsuffix, List.filter_append, hka, hra,
      List.append_nil]
  · rw [remove_pred_eq_filter cfg _ p hprefix, List.filter_append, hka, hra,
      List.nil_append]

/-- Witness for C7 (amended) at a concrete input: kept record a, removed
record b, predicate matching id b, with the gate enabled and the
accept-everything schema. -/
theorem remove_add_round_trip_witness :
    (remove recOps ([⟨"a", 1⟩] ++ [⟨"b", 2⟩])
        (Query.pred (fun r => r.id == "b")) = Except.ok [⟨"a", 1⟩] ∧
      add recOps [⟨"a", 1⟩] (Sum.inr [⟨"b", 2⟩]) (some Position.stop)
        = Except.ok ([⟨"a", 1⟩] ++ [⟨"b", 2⟩])) ∧
    (remove recOps ([⟨"b", 2⟩] ++ [⟨"a", 1⟩])
        (Query.pred (fun r => r.id == "b")) = Except.ok [⟨"a", 1⟩] ∧
      add recOps [⟨"a", 1⟩] (Sum.inr [⟨"b", 2⟩]) (some Position.start)
        = Except.ok ([⟨"b", 2⟩] ++ [⟨"a", 1⟩])) :=
  remove_add_round_trip recOps [⟨"a", 1⟩] [⟨"b", 2⟩]
    (fun r => r.id == "b") (by decide) (by decide)
    (fun _ _ => rfl) (fun _ _ => rfl)

end ZodDev
